import Mathlib

/-!
# testprintpkg: the definition/use reporter

A shallow embedding of `testprintpkg.go`.  The program loads packages, dumps each package's
syntax to standard output and reports every identifier resolution (definitions and uses) on
standard error.

Modelling conventions.

* `token.Pos` and the fields of `token.Position` are Go `int`s; they are only compared and
  printed, never computed with, so they are `Int` here.
* A Go map that is only ranged over (`TypesInfo.Defs`, `TypesInfo.Uses`) is the list of its
  entries in the order the `range` loop visits them.  A Go map that is only indexed (`pkgSet`)
  is a function from keys to optional values.
* An `io.Writer` is the record of the chunks handed to `Write`, one per call, together with the
  error each call returns.  Only errors that `Write` returns are described: a write to a closed
  pipe on descriptor 1 or 2 ends the process by a signal before `Write` returns, and is no run
  of this model.
* `packages.Load` is called with a `Config` whose `Fset` is nil (line 25 of the source): the
  loader then creates one `token.FileSet` and sets it as the `Fset` of every package of the
  load.  Theorems about the packages of one load take this as a hypothesis on the list.
* `fmt.Sprintf` with the verbs `%v`, `%d` and `%s` is string concatenation of the rendered
  arguments.
-/

namespace Testprintpkg

/-! ## Collaborators from the Go libraries -/

/-- The type `token.Position`.  A composite literal that names only `Filename` leaves the other
fields at their zero value. -/
structure Position where
  Filename : String
  Offset : Int := 0
  Line : Int := 0
  Column : Int := 0
deriving DecidableEq, Repr

/-- Decimal rendering of a Go `int` (`strconv.Itoa`, and the verb `%d`). -/
def itoa (n : Int) : String := toString n

/-- The method `token.Position.IsValid`: a position is valid when its line is positive. -/
def Position.IsValid (pos : Position) : Bool := decide (0 < pos.Line)

/-- The method `token.Position.String`, which is what the verb `%v` prints for a position:
`file:line:column`, `file:line`, `line:column`, `line`, `file`, or `-`. -/
def Position.render (pos : Position) : String :=
  let s := pos.Filename
  let s :=
    if pos.IsValid then
      let s := if s ≠ "" then s ++ ":" else s
      let s := s ++ itoa pos.Line
      if pos.Column ≠ 0 then s ++ ":" ++ itoa pos.Column else s
    else s
  if s = "" then "-" else s

/-- The type `token.FileSet`, used only through `Position`: the resolver from a byte offset to a
file, line and column. -/
structure FileSet where
  Position : Int → Position

/-- The type `types.Package`, used only through `Name`; `Path` tells apart two packages that have
the same name. -/
structure TypesPackage where
  Path : String
  Name : String
deriving DecidableEq, Repr

/-- The interface `types.Object`, through what the reporter reads from it: the declaring package
(`Pkg()`, nil for a builtin), the declaration offset (`Pos()`), the text of
`types.ObjectString(obj, nil)` and the text `%s` prints for `reflect.TypeOf(obj.Type())`. -/
structure Object where
  Pkg : Option TypesPackage
  Pos : Int
  ObjectString : String
  TypeOf : String
deriving DecidableEq, Repr

/-- The type `ast.Ident`, through what the reporter reads from it; `Pos()` is `NamePos`. -/
structure Ident where
  Pos : Int
  Name : String
deriving DecidableEq, Repr

/-- The type `types.Info`, with its two resolution tables.  The value of an entry is `none` when
the map holds a nil object for the identifier. -/
structure Info where
  Defs : List (Ident × Option Object)
  Uses : List (Ident × Option Object)

/-- The type `packages.Package`.  `Dump` is the sequence of chunks `ast.Fprint` hands to `Write`
when it prints this package. -/
structure Package where
  Name : String
  Types : TypesPackage
  Fset : FileSet
  TypesInfo : Info
  Dump : List String

/-- An `io.Writer`: the chunks handed to `Write` so far, one per call and in call order, and the
error (if any) that the call with a given index returns, such as `ENOSPC` on a full device. -/
structure Writer where
  written : List String
  errAt : Nat → Option String

/-- One call of `Write`: the chunk is recorded and the error of this call is returned. -/
def Writer.Write (w : Writer) (p : String) : Writer × Option String :=
  ({ w with written := w.written ++ [p] }, w.errAt w.written.length)

/-- The function `ast.Fprint`, as far as the streams see it: the chunks of the dump are written
in order, and the first failing `Write` stops the dump and is returned. -/
def Fprint (w : Writer) : List String → Writer × Option String
  | [] => (w, none)
  | c :: cs =>
    match w.Write c with
    | (w1, some err) => (w1, some err)
    | (w1, none) => Fprint w1 cs

/-! ## The program -/

/-- The constant `usage`. -/
def usage : String :=
  "testprintpkg - print AST to stdout, defs and uses to stderr\nUsage:\n  testprintpkg PATTERNS...\n    e.g. testprintpkg ./..."

/-- The map `map[string]*packages.Package`. -/
abbrev PkgSet := String → Option Package

/-- The statement `pkgSet[name] = pkg`. -/
def PkgSet.set (m : PkgSet) (name : String) (pkg : Package) : PkgSet :=
  fun k => if k = name then some pkg else m k

/-- Lines 30 to 33 of `main`: the package set built from the loaded packages. -/
def buildPkgSet (pkgs : List Package) : PkgSet :=
  pkgs.foldl (fun m pkg => m.set pkg.Name pkg) (fun _ => none)

/-- The function `printAST`. -/
def printAST (w : Writer) (pkg : Package) : Writer × Option String :=
  Fprint w pkg.Dump

/-- The type `logger`. -/
structure logger where
  prefix_ : String
  pkg : Package
  pkgSet : PkgSet
  w : Writer

/-- The method `logger.setPrefix`. -/
def logger.setPrefix (s : logger) (label : String) : logger :=
  { s with prefix_ := "[" ++ s.pkg.Name ++ "][" ++ label ++ "]" }

/-- The method `logger.writef`, applied to the already formatted message: the result of
`fmt.Fprintf` is dropped. -/
def logger.writef (s : logger) (msg : String) : logger :=
  { s with w := (s.w.Write (s.prefix_ ++ " " ++ msg ++ "\n")).1 }

/-- The method `logger.objPos`. -/
def logger.objPos (s : logger) (obj : Object) : Position :=
  match obj.Pkg with
  | none => { Filename := "unknown" }
  | some op =>
    match s.pkgSet op.Name with
    | some p => p.Fset.Position obj.Pos
    | none => { Filename := op.Name }

/-- The function literal `pkgName` inside `printObjects`. -/
def pkgName (obj : Object) : String :=
  match obj.Pkg with
  | none => "builtin"
  | some op => op.Name

/-- The body of the `range` loop of `logger.printObjects`, for one entry of the table. -/
def logger.printObject (s : logger) (ident : Ident) (obj : Option Object) : logger :=
  let identPos := s.pkg.Fset.Position ident.Pos
  match obj with
  | none => s.writef (identPos.render ++ " (nil)")
  | some obj =>
    let pkgName := pkgName obj
    let objType := obj.TypeOf
    if ident.Pos = obj.Pos then
      s.writef (identPos.render ++ " (" ++ itoa ident.Pos ++ ") " ++ pkgName ++ " "
        ++ obj.ObjectString ++ " " ++ objType)
    else
      s.writef (identPos.render ++ " (" ++ itoa ident.Pos ++ ") => " ++ pkgName ++ " "
        ++ (s.objPos obj).render ++ " (" ++ itoa obj.Pos ++ ") "
        ++ obj.ObjectString ++ " " ++ objType)

/-- The method `logger.printObjects`. -/
def logger.printObjects (s : logger) (objMap : List (Ident × Option Object)) : logger :=
  objMap.foldl (fun s e => s.printObject e.1 e.2) s

/-- The method `logger.printUses`. -/
def logger.printUses (s : logger) : logger :=
  (s.setPrefix "uses").printObjects s.pkg.TypesInfo.Uses

/-- The method `logger.printDefs`. -/
def logger.printDefs (s : logger) : logger :=
  (s.setPrefix "defs").printObjects s.pkg.TypesInfo.Defs

/-- How a run of `main` ends: it returns, it calls `os.Exit`, or it panics. -/
inductive Status where
  | returned
  | exit (code : Int)
  | panic (err : String)
deriving DecidableEq, Repr

/-- What `main` acts on: the two standard streams and the record of the calls made to
`packages.Load`, each with its patterns. -/
structure World where
  Stdout : Writer
  Stderr : Writer
  loads : List (List String)

/-- Lines 35 to 44 of `main`: the loop over the loaded packages.  `fail` panics on the error of
`printAST`; the logger is created anew for each package, with an empty prefix. -/
def mainLoop (pkgSet : PkgSet) : List Package → World → World × Status
  | [], world => (world, Status.returned)
  | pkg :: rest, world =>
    match printAST world.Stdout pkg with
    | (out, some err) => ({ world with Stdout := out }, Status.panic err)
    | (out, none) =>
      let lgr : logger := { prefix_ := "", pkg := pkg, pkgSet := pkgSet, w := world.Stderr }
      let lgr := lgr.printDefs
      let lgr := lgr.printUses
      mainLoop pkgSet rest { world with Stdout := out, Stderr := lgr.w }

/-- The function `main`.  `Load` is `packages.Load` with the configuration of the source, as a
function of the patterns; `Args` is `os.Args`. -/
def main (Load : List String → Except String (List Package)) (Args : List String)
    (world : World) : World × Status :=
  if Args.length < 2 then
    ({ world with Stderr := (world.Stderr.Write (usage ++ "\n")).1 }, Status.exit 1)
  else
    let world := { world with loads := world.loads ++ [Args.drop 1] }
    match Load (Args.drop 1) with
    | Except.error err => (world, Status.panic err)
    | Except.ok pkgs => mainLoop (buildPkgSet pkgs) pkgs world

/-- The message `printObject` formats for one entry with the logger `s`, before `writef` puts the
prefix in front of it: a name for the three format calls of the loop body, used to state the
lemmas below. -/
def logger.message (s : logger) (e : Ident × Option Object) : String :=
  match e.2 with
  | none => (s.pkg.Fset.Position e.1.Pos).render ++ " (nil)"
  | some obj =>
    if e.1.Pos = obj.Pos then
      (s.pkg.Fset.Position e.1.Pos).render ++ " (" ++ itoa e.1.Pos ++ ") " ++ pkgName obj ++ " "
        ++ obj.ObjectString ++ " " ++ obj.TypeOf
    else
      (s.pkg.Fset.Position e.1.Pos).render ++ " (" ++ itoa e.1.Pos ++ ") => " ++ pkgName obj ++ " "
        ++ (s.objPos obj).render ++ " (" ++ itoa obj.Pos ++ ") "
        ++ obj.ObjectString ++ " " ++ obj.TypeOf

/-! ## Sample inputs -/

/-- A position table that places every offset in the given file, on the given line, at the
column of the offset. -/
def sampleFset (file : String) (line : Int) : FileSet :=
  ⟨fun off => { Filename := file, Offset := off, Line := line, Column := off }⟩

/-- A writer on which no call fails. -/
def quiet : Writer := ⟨[], fun _ => none⟩

/-- Standard error on a full device: every call of `Write` returns the error `ENOSPC`. -/
def full : Writer := ⟨[], fun _ => some "write /dev/stderr: no space left on device"⟩

def typesA : TypesPackage := ⟨"example.com/m/a", "a"⟩
def typesB : TypesPackage := ⟨"example.com/m/b", "b"⟩
def typesFmt : TypesPackage := ⟨"fmt", "fmt"⟩

/-- The variable `x` of package `a`, declared at offset 5. -/
def objX : Object := ⟨some typesA, 5, "var example.com/m/a.x int", "*types.Basic"⟩
/-- The variable `Y` of package `b`, declared at offset 7. -/
def objY : Object := ⟨some typesB, 7, "var example.com/m/b.Y int", "*types.Basic"⟩
/-- The builtin `len`: no package, no position. -/
def objLen : Object := ⟨none, 0, "builtin len", "*types.Basic"⟩
/-- The function `fmt.Println`, of a package that is not loaded. -/
def objPrintln : Object :=
  ⟨some typesFmt, 9000, "func fmt.Println(a ...any) (n int, err error)", "*types.Signature"⟩

/-- Package `b`: it defines `Y`. -/
def pkgB : Package :=
  { Name := "b", Types := typesB, Fset := sampleFset "b.go" 2,
    TypesInfo := ⟨[(⟨7, "Y"⟩, some objY)], []⟩, Dump := ["dump of b"] }

/-- Package `a`: it defines `x` (the package clause identifier resolves to nothing) and uses
`x`, `len`, `b.Y` and `fmt.Println`. -/
def pkgA : Package :=
  { Name := "a", Types := typesA, Fset := sampleFset "a.go" 1,
    TypesInfo :=
      ⟨[(⟨5, "x"⟩, some objX), (⟨1, "a"⟩, none)],
       [(⟨20, "x"⟩, some objX), (⟨30, "len"⟩, some objLen), (⟨40, "Y"⟩, some objY),
        (⟨50, "Println"⟩, some objPrintln)]⟩,
    Dump := ["dump of a, part 1", "dump of a, part 2"] }

/-- Two different packages that are both named `util`. -/
def utilX : Package :=
  { Name := "util", Types := ⟨"example.com/m/x/util", "util"⟩,
    Fset := sampleFset "x/util/util.go" 3, TypesInfo := ⟨[], []⟩, Dump := [] }
def utilY : Package :=
  { Name := "util", Types := ⟨"example.com/m/y/util", "util"⟩,
    Fset := sampleFset "y/util/util.go" 9, TypesInfo := ⟨[], []⟩, Dump := [] }

/-- The function `Helper` of the first `util` package, declared at offset 12. -/
def objHelper : Object :=
  ⟨some utilX.Types, 12, "func example.com/m/x/util.Helper()", "*types.Signature"⟩

/-- A logger of package `a` over the package set of `a` and `b`, as `main` creates it and
`printUses` labels it. -/
def sampleLogger : logger :=
  { prefix_ := "[a][uses]", pkg := pkgA, pkgSet := buildPkgSet [pkgB, pkgA], w := quiet }

/-- The lines a fresh logger of `pkg` writes in its two passes, `printDefs` then `printUses`: the
block of the package in the report. -/
def pkgBlock (pkgSet : PkgSet) (pkg : Package) : List String :=
  (logger.printUses (logger.printDefs ⟨"", pkg, pkgSet, ⟨[], fun _ => none⟩⟩)).w.written

/-- A loader that answers every call with the packages `b` and `a`, in this order. -/
def sampleLoad : List String → Except String (List Package) :=
  fun _ => Except.ok [pkgB, pkgA]

/-- A world with empty streams on which no write fails. -/
def sampleWorld : World := ⟨quiet, quiet, []⟩

/-- A world whose standard error is on a full device. -/
def fullErrWorld : World := ⟨quiet, full, []⟩

/-- A world whose standard output is a file on a device that is full from the third write on:
the first two calls of `Write` succeed, every later one returns the error `ENOSPC`. -/
def fullOutWorld : World :=
  ⟨⟨[], fun n => if 2 ≤ n then some "write /dev/stdout: no space left on device" else none⟩,
    quiet, []⟩

/-- The one position table of a load of two files: offsets below 100 lie in `x/util/util.go`,
the others in `y/util/util.go`. -/
def loadFset : FileSet :=
  ⟨fun off =>
    if off < 100 then { Filename := "x/util/util.go", Offset := off, Line := 3, Column := off }
    else { Filename := "y/util/util.go", Offset := off - 100, Line := 9, Column := off - 100 }⟩

/-- A package named `util`, of the load with the table `loadFset`: it defines `Helper` at offset
12 and uses it at offset 30. -/
def sharedX : Package :=
  { Name := "util", Types := utilX.Types, Fset := loadFset,
    TypesInfo := ⟨[(⟨12, "Helper"⟩, some objHelper)], [(⟨30, "Helper"⟩, some objHelper)]⟩,
    Dump := ["dump of x/util"] }

/-- Another package named `util`, of the same load: it uses `Helper` of the first at offset
130. -/
def sharedY : Package :=
  { Name := "util", Types := utilY.Types, Fset := loadFset,
    TypesInfo := ⟨[], [(⟨130, "Helper"⟩, some objHelper)]⟩,
    Dump := ["dump of y/util, part 1", "dump of y/util, part 2"] }

/-- A loader that answers every call with the two packages of that load, in this order. -/
def sharedLoad : List String → Except String (List Package) :=
  fun _ => Except.ok [sharedX, sharedY]

/-! ## Frame and trace lemmas -/

theorem writef_written (s : logger) (msg : String) :
    (s.writef msg).w.written = s.w.written ++ [s.prefix_ ++ " " ++ msg ++ "\n"] := rfl

theorem writef_frame (s : logger) (msg : String) :
    (s.writef msg).prefix_ = s.prefix_ ∧ (s.writef msg).pkg = s.pkg
      ∧ (s.writef msg).pkgSet = s.pkgSet ∧ (s.writef msg).w.errAt = s.w.errAt :=
  ⟨rfl, rfl, rfl, rfl⟩

theorem printObject_eq_writef (s : logger) (e : Ident × Option Object) :
    s.printObject e.1 e.2 = s.writef (s.message e) := by
  obtain ⟨ident, obj⟩ := e
  cases obj with
  | none => rfl
  | some obj =>
    by_cases h : ident.Pos = obj.Pos
    · simp [logger.printObject, logger.message, h]
    · simp [logger.printObject, logger.message, h]

theorem objPos_congr (s t : logger) (h : s.pkgSet = t.pkgSet) (obj : Object) :
    s.objPos obj = t.objPos obj := by
  simp [logger.objPos, h]

theorem message_congr (s t : logger) (hpkg : s.pkg = t.pkg) (hset : s.pkgSet = t.pkgSet)
    (e : Ident × Option Object) : s.message e = t.message e := by
  simp [logger.message, hpkg, objPos_congr s t hset]

theorem printObjects_frame (objMap : List (Ident × Option Object)) (s : logger) :
    (s.printObjects objMap).prefix_ = s.prefix_ ∧ (s.printObjects objMap).pkg = s.pkg
      ∧ (s.printObjects objMap).pkgSet = s.pkgSet
      ∧ (s.printObjects objMap).w.errAt = s.w.errAt := by
  induction objMap generalizing s with
  | nil => exact ⟨rfl, rfl, rfl, rfl⟩
  | cons e rest ih =>
    have h := ih (s.printObject e.1 e.2)
    rw [printObject_eq_writef] at h
    simpa [logger.printObjects, printObject_eq_writef] using h

theorem printObjects_written (objMap : List (Ident × Option Object)) (s : logger) :
    (s.printObjects objMap).w.written
      = s.w.written ++ objMap.map (fun e => s.prefix_ ++ " " ++ s.message e ++ "\n") := by
  induction objMap generalizing s with
  | nil => simp [logger.printObjects]
  | cons e rest ih =>
    have h := ih (s.printObject e.1 e.2)
    rw [printObject_eq_writef] at h
    have hm : ∀ e', (s.writef (s.message e)).message e' = s.message e' :=
      fun e' => message_congr _ _ rfl rfl e'
    simp only [logger.printObjects, List.foldl_cons, printObject_eq_writef] at h ⊢
    rw [h]
    simp [writef_written, (writef_frame s (s.message e)).1, hm]

theorem printObjects_line (s : logger) (objMap : List (Ident × Option Object)) (i : Nat)
    (e : Ident × Option Object) (h : objMap[i]? = some e) :
    (s.printObjects objMap).w.written[s.w.written.length + i]?
      = some (s.prefix_ ++ " " ++ s.message e ++ "\n") := by
  rw [printObjects_written, List.getElem?_append_right (Nat.le_add_right _ _)]
  simp [h]

/-! ## The package set -/

theorem foldl_set_other (post : List Package) (m : PkgSet) (k : String)
    (h : ∀ q ∈ post, q.Name ≠ k) :
    post.foldl (fun m pkg => m.set pkg.Name pkg) m k = m k := by
  induction post generalizing m with
  | nil => rfl
  | cons q rest ih =>
    have hq : q.Name ≠ k := h q (List.mem_cons_self _ _)
    have hrest : ∀ r ∈ rest, r.Name ≠ k := fun r hr => h r (List.mem_cons_of_mem _ hr)
    rw [List.foldl_cons, ih _ hrest]
    simp [PkgSet.set, Ne.symm hq]

theorem buildPkgSet_last (pre post : List Package) (d : Package)
    (h : ∀ q ∈ post, q.Name ≠ d.Name) :
    buildPkgSet (pre ++ d :: post) d.Name = some d := by
  unfold buildPkgSet
  rw [List.foldl_append, List.foldl_cons, foldl_set_other post _ _ h]
  simp [PkgSet.set]

theorem buildPkgSet_snoc (l : List Package) (a : Package) :
    buildPkgSet (l ++ [a]) = (buildPkgSet l).set a.Name a := by
  simp [buildPkgSet, List.foldl_append]

theorem buildPkgSet_some (pkgs : List Package) :
    ∀ (k : String) (q : Package), buildPkgSet pkgs k = some q →
      ∃ pre post, pkgs = pre ++ q :: post ∧ q.Name = k ∧ ∀ r ∈ post, r.Name ≠ k := by
  induction pkgs using List.reverseRecOn with
  | nil =>
    intro k q h
    simp [buildPkgSet] at h
  | append_singleton l a ih =>
    intro k q h
    rw [buildPkgSet_snoc] at h
    by_cases hk : k = a.Name
    · simp only [PkgSet.set, hk, if_true] at h
      cases h
      exact ⟨l, [], rfl, hk.symm, by simp⟩
    · simp only [PkgSet.set, hk, if_false] at h
      obtain ⟨pre, post, hl, hq, hpost⟩ := ih k q h
      refine ⟨pre, post ++ [a], by rw [hl]; simp, hq, ?_⟩
      intro r hr
      rcases List.mem_append.1 hr with hr | hr
      · exact hpost r hr
      · rw [List.mem_singleton.1 hr]
        exact fun h2 => hk h2.symm

theorem buildPkgSet_isSome_of_mem (pkgs : List Package) :
    ∀ p ∈ pkgs, (buildPkgSet pkgs p.Name).isSome = true := by
  induction pkgs using List.reverseRecOn with
  | nil => intro p hp; simp at hp
  | append_singleton l a ih =>
    intro p hp
    rw [buildPkgSet_snoc]
    by_cases hk : p.Name = a.Name
    · simp [PkgSet.set, hk]
    · simp only [PkgSet.set, hk, if_false]
      rcases List.mem_append.1 hp with hp | hp
      · exact ih p hp
      · rw [List.mem_singleton.1 hp] at hk
        exact absurd rfl hk

/-! ## Claims -/

/-- C1: let the packages `pkgs` be those of one load, all carrying the position table `fset`
of the load, and let the declaring package `d` of the symbol, a package of that load, have a name
that is a key of the package set `main` builds from `pkgs`.  Then `objPos` returns the
declaration offset resolved in the position table of `d`, whatever the reporting package `rp`
and its table are, and also when several loaded packages bear the name of `d`. -/
theorem objPos_declaring_table (fset : FileSet) (pkgs : List Package) (d rp : Package)
    (pfx : String) (w : Writer) (obj : Object)
    (hshared : ∀ q ∈ pkgs, q.Fset = fset) (hd : d.Fset = fset)
    (hdecl : obj.Pkg = some d.Types)
    (hkey : (buildPkgSet pkgs d.Types.Name).isSome = true) :
    logger.objPos ⟨pfx, rp, buildPkgSet pkgs, w⟩ obj = d.Fset.Position obj.Pos := by
  obtain ⟨q, hq⟩ := Option.isSome_iff_exists.1 hkey
  obtain ⟨pre, post, hl, -, -⟩ := buildPkgSet_some pkgs _ q hq
  have hqmem : q ∈ pkgs := by rw [hl]; simp
  simp [logger.objPos, hdecl, hq, hshared q hqmem, hd]

/-- C1, witness: two loaded packages are named `util`; the second reports a use of `Helper`,
which the first declares at offset 12, and the offset is resolved in the table of the first. -/
theorem objPos_declaring_table_witness :
    logger.objPos ⟨"[util][uses]", sharedY, buildPkgSet [sharedX, sharedY], quiet⟩ objHelper
      = sharedX.Fset.Position objHelper.Pos :=
  objPos_declaring_table loadFset [sharedX, sharedY] sharedX sharedY "[util][uses]" quiet
    objHelper (by intro q hq; simp at hq; rcases hq with rfl | rfl <;> rfl) rfl rfl (by decide)

/-- C2: for an entry `(ident, obj)` at place `i` of the table whose symbol is present and
declared at the occurrence's own offset, the line `printObjects` writes for it is the prefix, a
space, the occurrence position resolved in the reporting package's table, the raw offset in
brackets, the declaring package name, the symbol string, the type kind and a newline.  It is a
definition line: it is not the use line for the entry, whatever is put in the fields for the
declaration position and the declaration offset after `=>`. -/
theorem printObjects_definition_line (s : logger) (objMap : List (Ident × Option Object))
    (i : Nat) (ident : Ident) (obj : Object)
    (hentry : objMap[i]? = some (ident, some obj)) (hpos : ident.Pos = obj.Pos) :
    (s.printObjects objMap).w.written[s.w.written.length + i]?
        = some (s.prefix_ ++ " "
            ++ ((s.pkg.Fset.Position ident.Pos).render ++ " (" ++ itoa ident.Pos ++ ") "
                ++ pkgName obj ++ " " ++ obj.ObjectString ++ " " ++ obj.TypeOf)
            ++ "\n")
      ∧ ∀ declPos declOffset : String,
          (s.printObjects objMap).w.written[s.w.written.length + i]?
            ≠ some (s.prefix_ ++ " "
                ++ ((s.pkg.Fset.Position ident.Pos).render ++ " (" ++ itoa ident.Pos ++ ") => "
                    ++ pkgName obj ++ " " ++ declPos ++ " (" ++ declOffset ++ ") "
                    ++ obj.ObjectString ++ " " ++ obj.TypeOf)
                ++ "\n") := by
  have hline := printObjects_line s objMap i (ident, some obj) hentry
  have hmsg : s.message (ident, some obj)
      = (s.pkg.Fset.Position ident.Pos).render ++ " (" ++ itoa ident.Pos ++ ") "
          ++ pkgName obj ++ " " ++ obj.ObjectString ++ " " ++ obj.TypeOf := by
    simp [logger.message, hpos]
  rw [hmsg] at hline
  refine ⟨hline, ?_⟩
  intro declPos declOffset h
  rw [hline] at h
  have hlen := congrArg String.length (Option.some.inj h)
  have h1 : (") " : String).length = 2 := by decide
  have h2 : (") => " : String).length = 5 := by decide
  have h3 : (" (" : String).length = 2 := by decide
  simp only [String.length_append, h1, h2, h3] at hlen
  omega

/-- C2, witness: the definition of `x` at offset 5 of package `a`. -/
theorem printObjects_definition_line_witness :
    ((sampleLogger.setPrefix "defs").printObjects pkgA.TypesInfo.Defs).w.written[0]?
      = some "[a][defs] a.go:1:5 (5) a var example.com/m/a.x int *types.Basic\n" :=
  (printObjects_definition_line (sampleLogger.setPrefix "defs") pkgA.TypesInfo.Defs 0
    ⟨5, "x"⟩ objX rfl rfl).1

/-- C3: for an entry `(ident, obj)` at place `i` of the table whose symbol is present and
declared at another offset than the occurrence, the line `printObjects` writes for it is the
prefix, a space, the occurrence position, the raw offset in brackets, `=>`, the declaring package
name, the declaration position that `objPos` gives for the symbol, the raw declaration offset in
brackets, the symbol string, the type kind and a newline. -/
theorem printObjects_use_line (s : logger) (objMap : List (Ident × Option Object))
    (i : Nat) (ident : Ident) (obj : Object)
    (hentry : objMap[i]? = some (ident, some obj)) (hpos : ident.Pos ≠ obj.Pos) :
    (s.printObjects objMap).w.written[s.w.written.length + i]?
      = some (s.prefix_ ++ " "
          ++ ((s.pkg.Fset.Position ident.Pos).render ++ " (" ++ itoa ident.Pos ++ ") => "
              ++ pkgName obj ++ " " ++ (s.objPos obj).render ++ " (" ++ itoa obj.Pos ++ ") "
              ++ obj.ObjectString ++ " " ++ obj.TypeOf)
          ++ "\n") := by
  have hline := printObjects_line s objMap i (ident, some obj) hentry
  have hmsg : s.message (ident, some obj)
      = (s.pkg.Fset.Position ident.Pos).render ++ " (" ++ itoa ident.Pos ++ ") => "
          ++ pkgName obj ++ " " ++ (s.objPos obj).render ++ " (" ++ itoa obj.Pos ++ ") "
          ++ obj.ObjectString ++ " " ++ obj.TypeOf := by
    simp [logger.message, hpos]
  rw [hmsg] at hline
  exact hline

/-- C3, witness: package `a` uses `b.Y` at offset 40; `Y` is declared at offset 7 of `b`. -/
theorem printObjects_use_line_witness :
    (sampleLogger.printObjects pkgA.TypesInfo.Uses).w.written[2]?
      = some "[a][uses] a.go:1:40 (40) => b b.go:2:7 (7) var example.com/m/b.Y int *types.Basic\n" :=
  printObjects_use_line sampleLogger pkgA.TypesInfo.Uses 2 ⟨40, "Y"⟩ objY rfl (by decide)

/-- C4: when the table holds an entry `(ident, nil)` between the entries `pre` and the entries
`post`, what `printObjects` writes is what it writes for `pre`, then one line made of the prefix, a
space, the occurrence position and `(nil)`, then the lines it writes for `post`: one line for
each remaining entry, the same as if `post` were reported alone.  The function has no error
result. -/
theorem printObjects_nil_entry (s : logger) (pre post : List (Ident × Option Object))
    (ident : Ident) :
    (s.printObjects (pre ++ (ident, none) :: post)).w.written
        = (s.printObjects pre).w.written
            ++ [s.prefix_ ++ " " ++ ((s.pkg.Fset.Position ident.Pos).render ++ " (nil)") ++ "\n"]
            ++ (s.printObjects post).w.written.drop s.w.written.length
      ∧ (s.printObjects pre).w.written.length = s.w.written.length + pre.length
      ∧ ((s.printObjects post).w.written.drop s.w.written.length).length = post.length := by
  have hmsg : s.message (ident, none) = (s.pkg.Fset.Position ident.Pos).render ++ " (nil)" := rfl
  refine ⟨?_, ?_, ?_⟩
  · simp [printObjects_written, hmsg]
  · simp [printObjects_written]
  · simp [printObjects_written]

/-- C5: for an entry at place `i` of the table whose symbol has no declaring package, the
package name `printObjects` prints is `builtin`, in a definition line as in a use line, and
`objPos` gives the position with file name `unknown` and with offset, line and column zero, which
prints as `unknown`; neither depends on the package set or on the declaration offset. -/
theorem builtin_symbol (s : logger) (objMap : List (Ident × Option Object))
    (i : Nat) (ident : Ident) (obj : Object)
    (hentry : objMap[i]? = some (ident, some obj)) (hpkg : obj.Pkg = none) :
    pkgName obj = "builtin"
      ∧ s.objPos obj = { Filename := "unknown", Offset := 0, Line := 0, Column := 0 }
      ∧ (s.printObjects objMap).w.written[s.w.written.length + i]?
          = some (s.prefix_ ++ " "
              ++ (if ident.Pos = obj.Pos then
                    (s.pkg.Fset.Position ident.Pos).render ++ " (" ++ itoa ident.Pos ++ ") "
                      ++ "builtin" ++ " " ++ obj.ObjectString ++ " " ++ obj.TypeOf
                  else
                    (s.pkg.Fset.Position ident.Pos).render ++ " (" ++ itoa ident.Pos ++ ") => "
                      ++ "builtin" ++ " " ++ "unknown" ++ " (" ++ itoa obj.Pos ++ ") "
                      ++ obj.ObjectString ++ " " ++ obj.TypeOf)
              ++ "\n") := by
  have hname : pkgName obj = "builtin" := by simp [pkgName, hpkg]
  have hobj : s.objPos obj = { Filename := "unknown", Offset := 0, Line := 0, Column := 0 } := by
    simp [logger.objPos, hpkg]
  have hrender :
      Position.render { Filename := "unknown", Offset := 0, Line := 0, Column := 0 }
        = "unknown" := by decide
  refine ⟨hname, hobj, ?_⟩
  rw [printObjects_line s objMap i (ident, some obj) hentry]
  simp only [logger.message, hname, hobj, hrender]

/-- C5, witness: the use of the builtin `len` at offset 30 of package `a`. -/
theorem builtin_symbol_witness :
    pkgName objLen = "builtin"
      ∧ sampleLogger.objPos objLen = { Filename := "unknown", Offset := 0, Line := 0, Column := 0 }
      ∧ (sampleLogger.printObjects pkgA.TypesInfo.Uses).w.written[1]?
          = some "[a][uses] a.go:1:30 (30) => builtin unknown (0) builtin len *types.Basic\n" :=
  builtin_symbol sampleLogger pkgA.TypesInfo.Uses 1 ⟨30, "len"⟩ objLen rfl rfl

/-- C6: for a symbol whose declaring package `op` has a name that is not a key of the package
set, `objPos` returns (it has no error result) the position whose file name is the name of `op`
and whose offset, line and column are zero; the position tables play no part: any logger whose
package set lacks the name gives the same position, whatever its packages and their tables. -/
theorem objPos_not_loaded (s : logger) (obj : Object) (op : TypesPackage)
    (hdecl : obj.Pkg = some op) (hkey : s.pkgSet op.Name = none) :
    s.objPos obj = { Filename := op.Name, Offset := 0, Line := 0, Column := 0 }
      ∧ ∀ t : logger, t.pkgSet op.Name = none → t.objPos obj = s.objPos obj := by
  have h : ∀ t : logger, t.pkgSet op.Name = none →
      t.objPos obj = { Filename := op.Name, Offset := 0, Line := 0, Column := 0 } := by
    intro t ht
    simp [logger.objPos, hdecl, ht]
  exact ⟨h s hkey, fun t ht => (h t ht).trans (h s hkey).symm⟩

/-- C6, witness: `fmt` is not among the loaded packages `a` and `b`. -/
theorem objPos_not_loaded_witness :
    sampleLogger.objPos objPrintln = { Filename := "fmt", Offset := 0, Line := 0, Column := 0 } :=
  (objPos_not_loaded sampleLogger objPrintln typesFmt rfl rfl).1

theorem setPrefix_lines (s : logger) (label : String) (objMap : List (Ident × Option Object)) :
    ∃ new : List String,
      ((s.setPrefix label).printObjects objMap).w.written = s.w.written ++ new
        ∧ new.length = objMap.length
        ∧ ∀ l ∈ new, ∃ body : String,
            l = "[" ++ s.pkg.Name ++ "][" ++ label ++ "]" ++ " " ++ body ++ "\n" := by
  refine ⟨objMap.map (fun e => (s.setPrefix label).prefix_ ++ " "
      ++ (s.setPrefix label).message e ++ "\n"), ?_, by simp, ?_⟩
  · rw [printObjects_written]; rfl
  · intro l hl
    obtain ⟨e, -, rfl⟩ := List.mem_map.1 hl
    exact ⟨(s.setPrefix label).message e, rfl⟩

/-- C7: a report pass writes one line for each entry of its table and nothing else: what
`printDefs` adds to the writer has as many chunks as the definitions table has entries, each
chunk is `[<package-name>][defs] `, a body and a newline, and an empty table adds nothing; the
same holds for `printUses` with the uses table and the label `uses`. -/
theorem report_pass_lines (s : logger) :
    (∃ new : List String,
        s.printDefs.w.written = s.w.written ++ new
          ∧ new.length = s.pkg.TypesInfo.Defs.length
          ∧ (∀ l ∈ new, ∃ body : String, l = "[" ++ s.pkg.Name ++ "][defs] " ++ body ++ "\n")
          ∧ (s.pkg.TypesInfo.Defs = [] → new = []))
      ∧ (∃ new : List String,
        s.printUses.w.written = s.w.written ++ new
          ∧ new.length = s.pkg.TypesInfo.Uses.length
          ∧ (∀ l ∈ new, ∃ body : String, l = "[" ++ s.pkg.Name ++ "][uses] " ++ body ++ "\n")
          ∧ (s.pkg.TypesInfo.Uses = [] → new = [])) := by
  have hd : ("][defs] " : String) = "][" ++ "defs" ++ "]" ++ " " := by decide
  have hu : ("][uses] " : String) = "][" ++ "uses" ++ "]" ++ " " := by decide
  constructor
  · obtain ⟨new, h1, h2, h3⟩ := setPrefix_lines s "defs" s.pkg.TypesInfo.Defs
    refine ⟨new, h1, h2, ?_, ?_⟩
    · intro l hl
      obtain ⟨body, rfl⟩ := h3 l hl
      exact ⟨body, by rw [hd]; simp only [String.append_assoc]⟩
    · intro h
      rw [h] at h2
      exact List.length_eq_zero.1 h2
  · obtain ⟨new, h1, h2, h3⟩ := setPrefix_lines s "uses" s.pkg.TypesInfo.Uses
    refine ⟨new, h1, h2, ?_, ?_⟩
    · intro l hl
      obtain ⟨body, rfl⟩ := h3 l hl
      exact ⟨body, by rw [hu]; simp only [String.append_assoc]⟩
    · intro h
      rw [h] at h2
      exact List.length_eq_zero.1 h2

/-! ## The two passes and the loop of `main` -/

theorem setPrefix_printObjects_written (s : logger) (label : String)
    (objMap : List (Ident × Option Object)) :
    ((s.setPrefix label).printObjects objMap).w.written
      = s.w.written ++ objMap.map (fun e =>
          "[" ++ s.pkg.Name ++ "][" ++ label ++ "]" ++ " " ++ s.message e ++ "\n") := by
  rw [printObjects_written]
  have hfun : (fun e => (s.setPrefix label).prefix_ ++ " " ++ (s.setPrefix label).message e
        ++ "\n")
      = (fun e => "[" ++ s.pkg.Name ++ "][" ++ label ++ "]" ++ " " ++ s.message e ++ "\n") := by
    funext e
    rw [message_congr (s.setPrefix label) s rfl rfl e]
    rfl
  rw [hfun]
  rfl

theorem printDefs_frame (s : logger) :
    s.printDefs.pkg = s.pkg ∧ s.printDefs.pkgSet = s.pkgSet
      ∧ s.printDefs.w.errAt = s.w.errAt := by
  obtain ⟨-, h2, h3, h4⟩ := printObjects_frame s.pkg.TypesInfo.Defs (s.setPrefix "defs")
  exact ⟨h2, h3, h4⟩

theorem printUses_frame (s : logger) :
    s.printUses.pkg = s.pkg ∧ s.printUses.pkgSet = s.pkgSet
      ∧ s.printUses.w.errAt = s.w.errAt := by
  obtain ⟨-, h2, h3, h4⟩ := printObjects_frame s.pkg.TypesInfo.Uses (s.setPrefix "uses")
  exact ⟨h2, h3, h4⟩

theorem passes_written (s : logger) :
    s.printDefs.printUses.w.written
      = s.w.written
        ++ (s.pkg.TypesInfo.Defs.map (fun e =>
              "[" ++ s.pkg.Name ++ "][" ++ "defs" ++ "]" ++ " " ++ s.message e ++ "\n")
          ++ s.pkg.TypesInfo.Uses.map (fun e =>
              "[" ++ s.pkg.Name ++ "][" ++ "uses" ++ "]" ++ " " ++ s.message e ++ "\n")) := by
  obtain ⟨h1, h2, -⟩ := printDefs_frame s
  have hu := setPrefix_printObjects_written s.printDefs "uses" s.printDefs.pkg.TypesInfo.Uses
  have hd : s.printDefs.w.written = _ :=
    setPrefix_printObjects_written s "defs" s.pkg.TypesInfo.Defs
  have hfun : (fun e => "[" ++ s.pkg.Name ++ "][" ++ "uses" ++ "]" ++ " "
        ++ s.printDefs.message e ++ "\n")
      = (fun e => "[" ++ s.pkg.Name ++ "][" ++ "uses" ++ "]" ++ " " ++ s.message e ++ "\n") := by
    funext e
    rw [message_congr s.printDefs s h1 h2 e]
  have hgoal : s.printDefs.printUses.w.written
      = ((s.printDefs.setPrefix "uses").printObjects s.printDefs.pkg.TypesInfo.Uses).w.written :=
    rfl
  rw [hgoal, hu, hd, h1, hfun, List.append_assoc]

theorem passes_eq_block (pfx : String) (pkg : Package) (pkgSet : PkgSet) (w : Writer) :
    (logger.printUses (logger.printDefs ⟨pfx, pkg, pkgSet, w⟩)).w.written
      = w.written ++ pkgBlock pkgSet pkg := by
  unfold pkgBlock
  rw [passes_written, passes_written]
  have hm : ∀ e, logger.message ⟨pfx, pkg, pkgSet, w⟩ e
      = logger.message ⟨"", pkg, pkgSet, ⟨[], fun _ => none⟩⟩ e :=
    fun e => message_congr _ _ rfl rfl e
  simp [hm]

theorem passes_errAt (s : logger) : s.printDefs.printUses.w.errAt = s.w.errAt := by
  rw [(printUses_frame s.printDefs).2.2, (printDefs_frame s).2.2]

theorem Fprint_cons_none (w : Writer) (c : String) (cs : List String)
    (h : w.errAt w.written.length = none) :
    Fprint w (c :: cs) = Fprint ⟨w.written ++ [c], w.errAt⟩ cs := by
  simp [Fprint, Writer.Write, h]

theorem Fprint_cons_some (w : Writer) (c : String) (cs : List String) (err : String)
    (h : w.errAt w.written.length = some err) :
    Fprint w (c :: cs) = (⟨w.written ++ [c], w.errAt⟩, some err) := by
  simp [Fprint, Writer.Write, h]

theorem Fprint_trace (cs : List String) (w : Writer) :
    (Fprint w cs).1.errAt = w.errAt
      ∧ ∃ j, j ≤ cs.length ∧ (Fprint w cs).1.written = w.written ++ cs.take j
        ∧ (∀ n, n + 1 < j → w.errAt (w.written.length + n) = none)
        ∧ (((Fprint w cs).2 = none ∧ j = cs.length
              ∧ ∀ n, n < j → w.errAt (w.written.length + n) = none)
            ∨ ∃ err, (Fprint w cs).2 = some err ∧ 0 < j
                ∧ w.errAt (w.written.length + (j - 1)) = some err) := by
  induction cs generalizing w with
  | nil =>
    refine ⟨rfl, 0, Nat.le_refl _, by simp [Fprint], ?_, Or.inl ⟨rfl, rfl, ?_⟩⟩
    · intro n hn; omega
    · intro n hn; omega
  | cons c cs ih =>
    cases herr : w.errAt w.written.length with
    | some err =>
      rw [Fprint_cons_some w c cs err herr]
      refine ⟨rfl, 1, by simp, by simp, ?_, Or.inr ⟨err, rfl, Nat.one_pos, by simpa using herr⟩⟩
      intro n hn; omega
    | none =>
      rw [Fprint_cons_none w c cs herr]
      obtain ⟨h1, j, hj, hw, hall, hlast⟩ := ih ⟨w.written ++ [c], w.errAt⟩
      have hshift : ∀ n, w.errAt ((w.written ++ [c]).length + n)
          = w.errAt (w.written.length + (n + 1)) := by
        intro n
        rw [List.length_append, List.length_singleton, Nat.add_assoc, Nat.add_comm 1 n]
      have hprev : ∀ n, n + 1 < j + 1 → w.errAt (w.written.length + n) = none := by
        intro n hn
        cases n with
        | zero => simpa using herr
        | succ m => rw [← hshift m]; exact hall m (by omega)
      refine ⟨h1, j + 1, by simpa using hj, by simpa using hw, hprev, ?_⟩
      rcases hlast with ⟨hnone, hjlen, hok⟩ | ⟨err, hsome, hpos, hat⟩
      · refine Or.inl ⟨hnone, by simp [hjlen], ?_⟩
        intro n hn
        cases n with
        | zero => simpa using herr
        | succ m => rw [← hshift m]; exact hok m (by omega)
      · refine Or.inr ⟨err, hsome, Nat.succ_pos _, ?_⟩
        have := hshift (j - 1)
        rw [this] at hat
        have hidx : j - 1 + 1 = j + 1 - 1 := by omega
        rw [hidx] at hat
        exact hat

theorem mainLoop_cons_panic (pkgSet : PkgSet) (pkg : Package) (rest : List Package)
    (world : World) (err : String) (h : (printAST world.Stdout pkg).2 = some err) :
    mainLoop pkgSet (pkg :: rest) world
      = ({ world with Stdout := (printAST world.Stdout pkg).1 }, Status.panic err) := by
  rcases hp : printAST world.Stdout pkg with ⟨out, r⟩
  rw [hp] at h
  simp only at h
  subst h
  simp [mainLoop, hp]

theorem mainLoop_cons_ok (pkgSet : PkgSet) (pkg : Package) (rest : List Package)
    (world : World) (h : (printAST world.Stdout pkg).2 = none) :
    mainLoop pkgSet (pkg :: rest) world
      = mainLoop pkgSet rest
          { world with
            Stdout := (printAST world.Stdout pkg).1,
            Stderr := (logger.printUses (logger.printDefs ⟨"", pkg, pkgSet, world.Stderr⟩)).w } := by
  rcases hp : printAST world.Stdout pkg with ⟨out, r⟩
  rw [hp] at h
  simp only at h
  subst h
  simp [mainLoop, hp]

/-- The trace of the loop of `main`: the packages before place `k` are dumped in full and
reported, all their writes to standard output succeed; either `k` is the number of packages and
the loop returns, or the dump of the package at place `k` stops at its first failing write, the
loop panics with that error, and nothing is reported for this package or a later one. -/
theorem mainLoop_trace (pkgSet : PkgSet) (pkgs : List Package) (world : World) :
    (mainLoop pkgSet pkgs world).1.Stdout.errAt = world.Stdout.errAt
      ∧ (mainLoop pkgSet pkgs world).1.Stderr.errAt = world.Stderr.errAt
      ∧ (mainLoop pkgSet pkgs world).1.loads = world.loads
      ∧ ∃ (k : Nat) (part : List String), k ≤ pkgs.length
        ∧ (mainLoop pkgSet pkgs world).1.Stdout.written
            = world.Stdout.written ++ ((pkgs.take k).flatMap Package.Dump ++ part)
        ∧ (mainLoop pkgSet pkgs world).1.Stderr.written
            = world.Stderr.written ++ (pkgs.take k).flatMap (pkgBlock pkgSet)
        ∧ (∀ n, n + 1 < ((pkgs.take k).flatMap Package.Dump ++ part).length →
              world.Stdout.errAt (world.Stdout.written.length + n) = none)
        ∧ (((mainLoop pkgSet pkgs world).2 = Status.returned ∧ k = pkgs.length ∧ part = []
              ∧ ∀ n, n < ((pkgs.take k).flatMap Package.Dump ++ part).length →
                  world.Stdout.errAt (world.Stdout.written.length + n) = none)
            ∨ ∃ (err : String) (pkg : Package),
                (mainLoop pkgSet pkgs world).2 = Status.panic err ∧ pkgs[k]? = some pkg
                  ∧ part ≠ [] ∧ part <+: pkg.Dump
                  ∧ world.Stdout.errAt (world.Stdout.written.length
                      + (((pkgs.take k).flatMap Package.Dump ++ part).length - 1))
                    = some err) := by
  induction pkgs generalizing world with
  | nil =>
    refine ⟨rfl, rfl, rfl, 0, [], Nat.le_refl _, by simp [mainLoop], by simp [mainLoop], ?_,
      Or.inl ⟨rfl, rfl, rfl, ?_⟩⟩
    · intro n hn; simp at hn
    · intro n hn; simp at hn
  | cons pkg rest ih =>
    obtain ⟨herrAt, j, hj, hw, hall, hlast⟩ := Fprint_trace pkg.Dump world.Stdout
    rcases hlast with ⟨hnone, hjlen, hok⟩ | ⟨err, hsome, hpos, hat⟩
    · -- the dump of `pkg` succeeds
      rw [mainLoop_cons_ok pkgSet pkg rest world hnone]
      subst hjlen
      rw [List.take_length] at hw
      obtain ⟨h1, h2, h3, k, part, hk, hout, herr, hprev, hend⟩ := ih
        { world with
          Stdout := (printAST world.Stdout pkg).1,
          Stderr := (logger.printUses (logger.printDefs ⟨"", pkg, pkgSet, world.Stderr⟩)).w }
      have hw2 : (printAST world.Stdout pkg).1.written = world.Stdout.written ++ pkg.Dump := hw
      have he2 : (printAST world.Stdout pkg).1.errAt = world.Stdout.errAt := herrAt
      simp only [hw2, he2, passes_eq_block, passes_errAt, List.length_append]
        at h1 h2 h3 hout herr hprev hend
      have hidx : ∀ n, n < ((List.take (k + 1) (pkg :: rest)).flatMap Package.Dump ++ part).length →
          (n < pkg.Dump.length ∨ ∃ m, n = pkg.Dump.length + m
            ∧ m < (List.flatMap (List.take k rest) Package.Dump).length + part.length) := by
        intro n hn
        simp only [List.take_succ_cons, List.flatMap_cons, List.length_append] at hn
        by_cases hlt : n < pkg.Dump.length
        · exact Or.inl hlt
        · exact Or.inr ⟨n - pkg.Dump.length, by omega, by omega⟩
      refine ⟨h1, h2, h3, k + 1, part, by simpa using hk, ?_, ?_, ?_, ?_⟩
      · rw [hout]; simp [List.append_assoc]
      · rw [herr]; simp [List.append_assoc]
      · intro n hn
        rcases hidx n (by omega) with hlt | ⟨m, rfl, hm⟩
        · exact hok n hlt
        · have := hprev m (by
            simp only [List.take_succ_cons, List.flatMap_cons, List.length_append] at hn
            omega)
          rw [← this]; congr 1; omega
      · rcases hend with ⟨hret, hkl, hpart, hall2⟩ | ⟨err, p, hpanic, hp, hne, hpre, hat⟩
        · refine Or.inl ⟨hret, by simp [hkl], hpart, ?_⟩
          intro n hn
          rcases hidx n hn with hlt | ⟨m, rfl, hm⟩
          · exact hok n hlt
          · have := hall2 m hm
            rw [← this]; congr 1; omega
        · refine Or.inr ⟨err, p, hpanic, by simpa using hp, hne, hpre, ?_⟩
          have hplen : 0 < part.length := List.length_pos.2 hne
          rw [← hat]; congr 1
          simp only [List.take_succ_cons, List.flatMap_cons, List.length_append]
          omega
    · -- the dump of `pkg` fails
      rw [mainLoop_cons_panic pkgSet pkg rest world err hsome]
      have hw2 : (printAST world.Stdout pkg).1.written
          = world.Stdout.written ++ pkg.Dump.take j := hw
      have hlen : (pkg.Dump.take j).length = j := by
        rw [List.length_take]; omega
      refine ⟨herrAt, rfl, rfl, 0, pkg.Dump.take j, Nat.zero_le _, by simpa using hw2, by simp,
        ?_, Or.inr ⟨err, pkg, rfl, by simp, ?_, List.take_prefix _ _, ?_⟩⟩
      · intro n hn
        simp only [List.take_zero, List.flatMap_nil, List.nil_append, hlen] at hn
        exact hall n hn
      · intro h
        rw [h] at hlen
        simp at hlen
        omega
      · simpa [hlen] using hat

theorem mainLoop_stderr_errors (pkgSet : PkgSet) (pkgs : List Package) (w1 w2 : World)
    (hout : w1.Stdout = w2.Stdout) (herr : w1.Stderr.written = w2.Stderr.written) :
    (mainLoop pkgSet pkgs w1).2 = (mainLoop pkgSet pkgs w2).2
      ∧ (mainLoop pkgSet pkgs w1).1.Stdout = (mainLoop pkgSet pkgs w2).1.Stdout
      ∧ (mainLoop pkgSet pkgs w1).1.Stderr.written
          = (mainLoop pkgSet pkgs w2).1.Stderr.written := by
  induction pkgs generalizing w1 w2 with
  | nil => exact ⟨rfl, hout, herr⟩
  | cons pkg rest ih =>
    cases hres : (printAST w1.Stdout pkg).2 with
    | some err =>
      have hres2 : (printAST w2.Stdout pkg).2 = some err := by rw [← hout]; exact hres
      rw [mainLoop_cons_panic pkgSet pkg rest w1 err hres,
        mainLoop_cons_panic pkgSet pkg rest w2 err hres2]
      exact ⟨rfl, by simp [hout], herr⟩
    | none =>
      have hres2 : (printAST w2.Stdout pkg).2 = none := by rw [← hout]; exact hres
      rw [mainLoop_cons_ok pkgSet pkg rest w1 hres, mainLoop_cons_ok pkgSet pkg rest w2 hres2]
      apply ih
      · simp [hout]
      · simp [passes_eq_block, herr]

theorem main_loaded (Load : List String → Except String (List Package)) (Args : List String)
    (world : World) (pkgs : List Package) (hargs : 2 ≤ Args.length)
    (hload : Load (Args.drop 1) = Except.ok pkgs) :
    main Load Args world
      = mainLoop (buildPkgSet pkgs) pkgs { world with loads := world.loads ++ [Args.drop 1] } := by
  have h : ¬ Args.length < 2 := by omega
  unfold main
  rw [if_neg h]
  simp only [hload]

theorem pkgBlock_eq (pkgSet : PkgSet) (pkg : Package) :
    pkgBlock pkgSet pkg
      = pkg.TypesInfo.Defs.map (fun e => "[" ++ pkg.Name ++ "][" ++ "defs" ++ "]" ++ " "
            ++ logger.message ⟨"", pkg, pkgSet, ⟨[], fun _ => none⟩⟩ e ++ "\n")
        ++ pkg.TypesInfo.Uses.map (fun e => "[" ++ pkg.Name ++ "][" ++ "uses" ++ "]" ++ " "
            ++ logger.message ⟨"", pkg, pkgSet, ⟨[], fun _ => none⟩⟩ e ++ "\n") := by
  unfold pkgBlock
  rw [passes_written]
  simp

/-- C8: when `main` is given patterns and the loader answers with the packages `pkgs`, what it
writes to standard error is the blocks of the packages it has reported, in the order of the
list: the blocks of all packages when the run returns, which it does when no write to standard
output fails, and the blocks of the first `k` packages in any case.  The block of a package is
its `[<name>][defs]` lines, one for each entry of its definitions table, followed by its
`[<name>][uses]` lines, one for each entry of its uses table. -/
theorem main_stderr_blocks (Load : List String → Except String (List Package))
    (Args : List String) (world : World) (pkgs : List Package) (hargs : 2 ≤ Args.length)
    (hload : Load (Args.drop 1) = Except.ok pkgs) :
    ((main Load Args world).2 = Status.returned →
        (main Load Args world).1.Stderr.written
          = world.Stderr.written ++ pkgs.flatMap (pkgBlock (buildPkgSet pkgs)))
      ∧ ((∀ n, world.Stdout.errAt n = none) → (main Load Args world).2 = Status.returned)
      ∧ (∃ k, k ≤ pkgs.length ∧ (main Load Args world).1.Stderr.written
          = world.Stderr.written ++ (pkgs.take k).flatMap (pkgBlock (buildPkgSet pkgs)))
      ∧ ∀ pkg : Package, ∃ defs uses : List String,
          pkgBlock (buildPkgSet pkgs) pkg = defs ++ uses
            ∧ defs.length = pkg.TypesInfo.Defs.length
            ∧ uses.length = pkg.TypesInfo.Uses.length
            ∧ (∀ l ∈ defs, ∃ body : String, l = "[" ++ pkg.Name ++ "][defs] " ++ body ++ "\n")
            ∧ (∀ l ∈ uses, ∃ body : String, l = "[" ++ pkg.Name ++ "][uses] " ++ body ++ "\n") := by
  rw [main_loaded Load Args world pkgs hargs hload]
  obtain ⟨-, -, -, k, part, hk, -, herr, -, hend⟩ := mainLoop_trace (buildPkgSet pkgs) pkgs
    { world with loads := world.loads ++ [Args.drop 1] }
  refine ⟨?_, ?_, ⟨k, hk, herr⟩, ?_⟩
  · intro hret
    rcases hend with ⟨-, hkl, -, -⟩ | ⟨err, p, hpanic, -⟩
    · rw [herr, hkl, List.take_length]
    · rw [hpanic] at hret; cases hret
  · intro hquiet
    rcases hend with ⟨hret, -⟩ | ⟨err, p, -, -, -, -, hat⟩
    · exact hret
    · have := hquiet (world.Stdout.written.length
        + (((pkgs.take k).flatMap Package.Dump ++ part).length - 1))
      simp only at hat
      rw [this] at hat
      cases hat
  · intro pkg
    have hd : ("][defs] " : String) = "][" ++ "defs" ++ "]" ++ " " := by decide
    have hu : ("][uses] " : String) = "][" ++ "uses" ++ "]" ++ " " := by decide
    refine ⟨_, _, pkgBlock_eq (buildPkgSet pkgs) pkg, by simp, by simp, ?_, ?_⟩
    · intro l hl
      obtain ⟨e, -, rfl⟩ := List.mem_map.1 hl
      exact ⟨logger.message ⟨"", pkg, buildPkgSet pkgs, ⟨[], fun _ => none⟩⟩ e,
        by rw [hd]; simp only [String.append_assoc]⟩
    · intro l hl
      obtain ⟨e, -, rfl⟩ := List.mem_map.1 hl
      exact ⟨logger.message ⟨"", pkg, buildPkgSet pkgs, ⟨[], fun _ => none⟩⟩ e,
        by rw [hu]; simp only [String.append_assoc]⟩

/-- C8, witness: the packages `b` and `a` are loaded in this order; the report is the line of
`b`, then the two `defs` lines of `a`, then the four `uses` lines of `a`. -/
theorem main_stderr_blocks_witness :
    (main sampleLoad ["testprintpkg", "./..."] sampleWorld).1.Stderr.written
      = ["[b][defs] b.go:2:7 (7) b var example.com/m/b.Y int *types.Basic\n",
         "[a][defs] a.go:1:5 (5) a var example.com/m/a.x int *types.Basic\n",
         "[a][defs] a.go:1:1 (nil)\n",
         "[a][uses] a.go:1:20 (20) => a a.go:1:5 (5) var example.com/m/a.x int *types.Basic\n",
         "[a][uses] a.go:1:30 (30) => builtin unknown (0) builtin len *types.Basic\n",
         "[a][uses] a.go:1:40 (40) => b b.go:2:7 (7) var example.com/m/b.Y int *types.Basic\n",
         "[a][uses] a.go:1:50 (50) => fmt fmt (9000) func fmt.Println(a ...any) (n int, err error) *types.Signature\n"] :=
  (main_stderr_blocks sampleLoad ["testprintpkg", "./..."] sampleWorld [pkgB, pkgA]
    (by decide) rfl).1 (by decide)

/-- C9, as the code has it.  Let `main` be given patterns and let the loader answer with `pkgs`.
An error returned by a write to standard output is fatal: if a write that the run issues there
returns an error, `main` panics with that error, the failing write is the last one on standard
output, it belongs to the dump of the package at some place `k`, and standard error holds the
blocks of the packages before `k` only.  An error returned by a write to standard error is
dropped: whatever errors `e` the writes to standard error return, the run ends the same way,
with the same writes on both streams. -/
theorem write_failures (Load : List String → Except String (List Package))
    (Args : List String) (world : World) (pkgs : List Package) (hargs : 2 ≤ Args.length)
    (hload : Load (Args.drop 1) = Except.ok pkgs) :
    (∀ (n : Nat) (err : String), world.Stdout.written.length ≤ n →
        n < (main Load Args world).1.Stdout.written.length →
        world.Stdout.errAt n = some err →
        (main Load Args world).2 = Status.panic err
          ∧ n + 1 = (main Load Args world).1.Stdout.written.length
          ∧ ∃ (k : Nat) (part : List String) (pkg : Package),
              pkgs[k]? = some pkg ∧ part ≠ [] ∧ part <+: pkg.Dump
                ∧ (main Load Args world).1.Stdout.written
                    = world.Stdout.written ++ ((pkgs.take k).flatMap Package.Dump ++ part)
                ∧ (main Load Args world).1.Stderr.written
                    = world.Stderr.written
                        ++ (pkgs.take k).flatMap (pkgBlock (buildPkgSet pkgs)))
      ∧ ∀ e : Nat → Option String,
          (main Load Args { world with Stderr := { world.Stderr with errAt := e } }).2
              = (main Load Args world).2
            ∧ (main Load Args { world with Stderr := { world.Stderr with errAt := e } }).1.Stdout
              = (main Load Args world).1.Stdout
            ∧ (main Load Args
                  { world with Stderr := { world.Stderr with errAt := e } }).1.Stderr.written
              = (main Load Args world).1.Stderr.written := by
  constructor
  · rw [main_loaded Load Args world pkgs hargs hload]
    obtain ⟨-, -, -, k, part, -, hout, herr, hprev, hend⟩ := mainLoop_trace (buildPkgSet pkgs)
      pkgs { world with loads := world.loads ++ [Args.drop 1] }
    simp only at hout herr hprev hend
    intro n err hge hlt hat
    rw [hout, List.length_append] at hlt
    obtain ⟨m, rfl⟩ : ∃ m, n = world.Stdout.written.length + m := ⟨n - world.Stdout.written.length, by omega⟩
    have hm : m < ((pkgs.take k).flatMap Package.Dump ++ part).length := by omega
    rcases hend with ⟨-, -, -, hall⟩ | ⟨err2, pkg, hpanic, hk, hne, hpre, hat2⟩
    · rw [hall m hm] at hat; cases hat
    · have hlast : m + 1 = ((pkgs.take k).flatMap Package.Dump ++ part).length := by
        by_contra hcon
        rw [hprev m (by omega)] at hat
        cases hat
      have hidx : ((pkgs.take k).flatMap Package.Dump ++ part).length - 1 = m := by omega
      rw [hidx, hat] at hat2
      cases hat2
      refine ⟨hpanic, ?_, k, part, pkg, hk, hne, hpre, hout, herr⟩
      rw [hout, List.length_append]
      omega
  · intro e
    rw [main_loaded Load Args world pkgs hargs hload, main_loaded Load Args _ pkgs hargs hload]
    exact mainLoop_stderr_errors (buildPkgSet pkgs) pkgs _ _ rfl rfl

/-- C9, witness: standard output is on a device that is full from the third write on; the third
write, the second chunk of the dump of the second package, returns `ENOSPC`; `main` panics with
the error, the write is the last one, and only the first package is reported. -/
theorem write_failures_witness :
    (main sharedLoad ["testprintpkg", "./..."] fullOutWorld).2
        = Status.panic "write /dev/stdout: no space left on device"
      ∧ 2 + 1 = (main sharedLoad ["testprintpkg", "./..."] fullOutWorld).1.Stdout.written.length
      ∧ ∃ (k : Nat) (part : List String) (pkg : Package),
          [sharedX, sharedY][k]? = some pkg ∧ part ≠ [] ∧ part <+: pkg.Dump
            ∧ (main sharedLoad ["testprintpkg", "./..."] fullOutWorld).1.Stdout.written
                = fullOutWorld.Stdout.written
                    ++ (([sharedX, sharedY].take k).flatMap Package.Dump ++ part)
            ∧ (main sharedLoad ["testprintpkg", "./..."] fullOutWorld).1.Stderr.written
                = fullOutWorld.Stderr.written
                    ++ ([sharedX, sharedY].take k).flatMap
                        (pkgBlock (buildPkgSet [sharedX, sharedY])) :=
  (write_failures sharedLoad ["testprintpkg", "./..."] fullOutWorld [sharedX, sharedY]
    (by decide) rfl).1 2 "write /dev/stdout: no space left on device" (by decide) (by decide) rfl

/-- C9, counterexample: standard error is on a full device, so every write to it returns the
error `ENOSPC`, the first one included; yet `main` returns normally after it has handed all
three report lines to the stream, the same lines as on a run without errors: the returned error
does not abort the run and the later lines are still reported. -/
theorem stderr_failure_counterexample :
    (∀ n < 3, fullErrWorld.Stderr.errAt n = some "write /dev/stderr: no space left on device")
      ∧ (main sharedLoad ["testprintpkg", "./..."] fullErrWorld).2 = Status.returned
      ∧ (main sharedLoad ["testprintpkg", "./..."] fullErrWorld).1.Stderr.written
          = (main sharedLoad ["testprintpkg", "./..."] sampleWorld).1.Stderr.written
      ∧ (main sharedLoad ["testprintpkg", "./..."] fullErrWorld).1.Stderr.written.length
          = 3 := by
  decide

theorem usage_not_in_block (pkgSet : PkgSet) (pkg : Package) :
    usage ++ "\n" ∉ pkgBlock pkgSet pkg := by
  have hu : (usage ++ "\n").data.head? = some 't' := by decide
  have hne : ∀ a : String, usage ++ "\n" ≠ "[" ++ a := by
    intro a h
    have h2 : (usage ++ "\n").data.head? = ("[" ++ a).data.head? := by rw [h]
    have h3 : ("[" : String).data = ['['] := rfl
    rw [hu, String.data_append, h3] at h2
    simp at h2
  intro h
  rw [pkgBlock_eq] at h
  rcases List.mem_append.1 h with h | h
  · obtain ⟨e, -, he⟩ := List.mem_map.1 h
    simp only [String.append_assoc] at he
    exact hne _ he.symm
  · obtain ⟨e, -, he⟩ := List.mem_map.1 h
    simp only [String.append_assoc] at he
    exact hne _ he.symm

theorem mainLoop_no_exit (pkgSet : PkgSet) (pkgs : List Package) (world : World) (code : Int) :
    (mainLoop pkgSet pkgs world).2 ≠ Status.exit code := by
  obtain ⟨-, -, -, k, part, -, -, -, -, hend⟩ := mainLoop_trace pkgSet pkgs world
  rcases hend with ⟨hret, -⟩ | ⟨err, p, hpanic, -⟩
  · rw [hret]; intro h; cases h
  · rw [hpanic]; intro h; cases h

/-- C10: when the argument vector holds fewer than two entries (the program name only), `main`
hands the usage text and a newline to standard error, exits with status 1, does not call the
loader and leaves standard output as it was.  With one pattern or more it does none of this: it
calls the loader once with the patterns, it ends by returning or by a panic and not by an exit,
and the usage text is not among what it writes to standard error. -/
theorem main_usage (Load : List String → Except String (List Package)) (Args : List String)
    (world : World) :
    (Args.length < 2 →
        (main Load Args world).2 = Status.exit 1
          ∧ (main Load Args world).1.Stderr.written = world.Stderr.written ++ [usage ++ "\n"]
          ∧ (main Load Args world).1.loads = world.loads
          ∧ (main Load Args world).1.Stdout = world.Stdout)
      ∧ (2 ≤ Args.length →
        (∀ code : Int, (main Load Args world).2 ≠ Status.exit code)
          ∧ (main Load Args world).1.loads = world.loads ++ [Args.drop 1]
          ∧ ∃ new : List String,
              (main Load Args world).1.Stderr.written = world.Stderr.written ++ new
                ∧ usage ++ "\n" ∉ new) := by
  constructor
  · intro h
    unfold main
    rw [if_pos h]
    exact ⟨rfl, rfl, rfl, rfl⟩
  · intro h
    cases hload : Load (Args.drop 1) with
    | error err =>
      have hlt : ¬ Args.length < 2 := by omega
      have hmain : main Load Args world
          = ({ world with loads := world.loads ++ [Args.drop 1] }, Status.panic err) := by
        unfold main
        rw [if_neg hlt]
        simp only [hload]
      rw [hmain]
      refine ⟨?_, rfl, [], by simp, by simp⟩
      intro code hc
      cases hc
    | ok pkgs =>
      rw [main_loaded Load Args world pkgs h hload]
      obtain ⟨-, -, hloads, k, part, -, -, herr, -, -⟩ := mainLoop_trace (buildPkgSet pkgs) pkgs
        { world with loads := world.loads ++ [Args.drop 1] }
      refine ⟨fun code => mainLoop_no_exit _ _ _ code, hloads, _, herr, ?_⟩
      intro hmem
      obtain ⟨p, -, hp⟩ := List.mem_flatMap.1 hmem
      exact usage_not_in_block _ _ hp

/-- C10, witness: the program is started with its name only. -/
theorem main_usage_witness :
    (main sampleLoad ["testprintpkg"] sampleWorld).2 = Status.exit 1
      ∧ (main sampleLoad ["testprintpkg"] sampleWorld).1.Stderr.written
          = sampleWorld.Stderr.written ++ [usage ++ "\n"]
      ∧ (main sampleLoad ["testprintpkg"] sampleWorld).1.loads = sampleWorld.loads
      ∧ (main sampleLoad ["testprintpkg"] sampleWorld).1.Stdout = sampleWorld.Stdout :=
  (main_usage sampleLoad ["testprintpkg"] sampleWorld).1 (by decide)

/-! ## Builtins, frames, visiting order and the package set -/

theorem builtin_fields (x y : String) :
    x ++ ") => " ++ "builtin" ++ " " ++ "unknown" ++ " (" ++ "0" ++ ") " ++ y
      = x ++ ") " ++ "=> builtin unknown (0) " ++ y := by
  have h : (") => " ++ ("builtin" ++ (" " ++ ("unknown" ++ (" (" ++ ("0" ++ ") "))))) : String)
      = ") " ++ "=> builtin unknown (0) " := by decide
  have h2 : x ++ ") => " ++ "builtin" ++ " " ++ "unknown" ++ " (" ++ "0" ++ ") "
      = x ++ (") => " ++ ("builtin" ++ (" " ++ ("unknown" ++ (" (" ++ ("0" ++ ") ")))))) := by
    simp only [String.append_assoc]
  rw [h2, h, ← String.append_assoc]

/-- C12: for an entry at place `i` of the table whose symbol has no declaring package and the
declaration offset zero, at an occurrence whose offset is not zero, `printObjects` writes a use
line: prefix, space, occurrence position, the raw offset in brackets, then
`=> builtin unknown (0)`, the symbol string and the type kind, and a newline.  The package name
is `builtin`, the declaration position prints as the bare word `unknown`, and the line is not
the definition line of the entry. -/
theorem builtin_use_line (s : logger) (objMap : List (Ident × Option Object))
    (i : Nat) (ident : Ident) (obj : Object)
    (hentry : objMap[i]? = some (ident, some obj)) (hpkg : obj.Pkg = none)
    (hdecl : obj.Pos = 0) (hocc : ident.Pos ≠ 0) :
    (s.printObjects objMap).w.written[s.w.written.length + i]?
        = some (s.prefix_ ++ " "
            ++ ((s.pkg.Fset.Position ident.Pos).render ++ " (" ++ itoa ident.Pos ++ ") "
                ++ "=> builtin unknown (0) " ++ obj.ObjectString ++ " " ++ obj.TypeOf)
            ++ "\n")
      ∧ pkgName obj = "builtin"
      ∧ (s.objPos obj).render = "unknown"
      ∧ (s.printObjects objMap).w.written[s.w.written.length + i]?
          ≠ some (s.prefix_ ++ " "
              ++ ((s.pkg.Fset.Position ident.Pos).render ++ " (" ++ itoa ident.Pos ++ ") "
                  ++ pkgName obj ++ " " ++ obj.ObjectString ++ " " ++ obj.TypeOf)
              ++ "\n") := by
  have hname : pkgName obj = "builtin" := by simp [pkgName, hpkg]
  have hobj : s.objPos obj = { Filename := "unknown", Offset := 0, Line := 0, Column := 0 } := by
    simp [logger.objPos, hpkg]
  have hrender : (s.objPos obj).render = "unknown" := by rw [hobj]; decide
  have hzero : itoa 0 = "0" := by decide
  have hne : ident.Pos ≠ obj.Pos := by rw [hdecl]; exact hocc
  have hmsg : s.message (ident, some obj)
      = (s.pkg.Fset.Position ident.Pos).render ++ " (" ++ itoa ident.Pos ++ ") "
          ++ "=> builtin unknown (0) " ++ obj.ObjectString ++ " " ++ obj.TypeOf := by
    have hm0 : s.message (ident, some obj)
        = (s.pkg.Fset.Position ident.Pos).render ++ " (" ++ itoa ident.Pos ++ ") => "
            ++ pkgName obj ++ " " ++ (s.objPos obj).render ++ " (" ++ itoa obj.Pos ++ ") "
            ++ obj.ObjectString ++ " " ++ obj.TypeOf := by
      simp only [logger.message]
      rw [if_neg hne]
    rw [hm0, hname, hrender, hdecl, hzero, builtin_fields]
  have hline := printObjects_line s objMap i (ident, some obj) hentry
  rw [hmsg] at hline
  refine ⟨hline, hname, hrender, ?_⟩
  intro h
  rw [hline, hname] at h
  have hlen := congrArg String.length (Option.some.inj h)
  have h1 : (") " : String).length = 2 := by decide
  have h2 : ("=> builtin unknown (0) " : String).length = 23 := by decide
  have h3 : (" (" : String).length = 2 := by decide
  have h4 : ("builtin" : String).length = 7 := by decide
  have h5 : (" " : String).length = 1 := by decide
  simp only [String.length_append, h1, h2, h3, h4, h5] at hlen
  omega

/-- C12, witness: the use of `len` at offset 30 of package `a`. -/
theorem builtin_use_line_witness :
    (sampleLogger.printObjects pkgA.TypesInfo.Uses).w.written[1]?
      = some "[a][uses] a.go:1:30 (30) => builtin unknown (0) builtin len *types.Basic\n" :=
  (builtin_use_line sampleLogger pkgA.TypesInfo.Uses 1 ⟨30, "len"⟩ objLen rfl rfl rfl
    (by decide)).1

/-- C13: `printObjects` leaves the logger's prefix, package and package set as they were, and
`objPos` is a function of the package set and the symbol that changes nothing.  After `printDefs`
the prefix is `[<package-name>][defs]` and after `printUses` it is `[<package-name>][uses]`,
whatever it was before, with package and package set unchanged.  The lines `printUses` writes
after `printDefs` are the lines it writes when it runs alone. -/
theorem report_pass_frame (s : logger) (objMap : List (Ident × Option Object)) :
    ((s.printObjects objMap).prefix_ = s.prefix_ ∧ (s.printObjects objMap).pkg = s.pkg
        ∧ (s.printObjects objMap).pkgSet = s.pkgSet)
      ∧ (∀ (t : logger) (obj : Object), t.pkgSet = s.pkgSet → t.objPos obj = s.objPos obj)
      ∧ (s.printDefs.prefix_ = "[" ++ s.pkg.Name ++ "][defs]" ∧ s.printDefs.pkg = s.pkg
          ∧ s.printDefs.pkgSet = s.pkgSet)
      ∧ (s.printUses.prefix_ = "[" ++ s.pkg.Name ++ "][uses]" ∧ s.printUses.pkg = s.pkg
          ∧ s.printUses.pkgSet = s.pkgSet)
      ∧ s.printDefs.printUses.prefix_ = s.printUses.prefix_
      ∧ ∃ uses : List String,
          s.printUses.w.written = s.w.written ++ uses
            ∧ s.printDefs.printUses.w.written = s.printDefs.w.written ++ uses := by
  have hd : ("][defs]" : String) = "][" ++ "defs" ++ "]" := by decide
  have hu : ("][uses]" : String) = "][" ++ "uses" ++ "]" := by decide
  obtain ⟨f1, f2, f3, -⟩ := printObjects_frame objMap s
  obtain ⟨d1, d2, d3, -⟩ := printObjects_frame s.pkg.TypesInfo.Defs (s.setPrefix "defs")
  obtain ⟨u1, u2, u3, -⟩ := printObjects_frame s.pkg.TypesInfo.Uses (s.setPrefix "uses")
  obtain ⟨v1, v2, v3, -⟩ := printObjects_frame s.printDefs.pkg.TypesInfo.Uses
    (s.printDefs.setPrefix "uses")
  have hdp : s.printDefs.prefix_ = "[" ++ s.pkg.Name ++ "][defs]" := by
    rw [hd]; simp only [← String.append_assoc]; exact d1
  have hup : s.printUses.prefix_ = "[" ++ s.pkg.Name ++ "][uses]" := by
    rw [hu]; simp only [← String.append_assoc]; exact u1
  have hdu : s.printDefs.printUses.prefix_ = s.printUses.prefix_ := by
    have hv : s.printDefs.printUses.prefix_ = "[" ++ s.printDefs.pkg.Name ++ "][" ++ "uses" ++ "]" :=
      v1
    have hu1 : s.printUses.prefix_ = "[" ++ s.pkg.Name ++ "][" ++ "uses" ++ "]" := u1
    rw [hv, hu1, (printDefs_frame s).1]
  refine ⟨⟨f1, f2, f3⟩, fun t obj ht => objPos_congr t s ht obj, ⟨hdp, d2, d3⟩, ⟨hup, u2, u3⟩,
    hdu, ?_⟩
  refine ⟨s.pkg.TypesInfo.Uses.map (fun e =>
      "[" ++ s.pkg.Name ++ "][" ++ "uses" ++ "]" ++ " " ++ s.message e ++ "\n"), ?_, ?_⟩
  · exact setPrefix_printObjects_written s "uses" s.pkg.TypesInfo.Uses
  · have h := setPrefix_printObjects_written s.printDefs "uses" s.printDefs.pkg.TypesInfo.Uses
    obtain ⟨h1, h2, -⟩ := printDefs_frame s
    have hfun : (fun e => "[" ++ s.pkg.Name ++ "][" ++ "uses" ++ "]" ++ " "
          ++ s.printDefs.message e ++ "\n")
        = (fun e => "[" ++ s.pkg.Name ++ "][" ++ "uses" ++ "]" ++ " " ++ s.message e ++ "\n") := by
      funext e
      rw [message_congr s.printDefs s h1 h2 e]
    have hgoal : s.printDefs.printUses.w.written
        = ((s.printDefs.setPrefix "uses").printObjects
            s.printDefs.pkg.TypesInfo.Uses).w.written := rfl
    rw [hgoal, h, h1, hfun]

/-- C14: the line written for an entry is a function of the entry and of the logger's prefix,
package and package set; for every writer and every table `printObjects` adds the lines of the
entries, one for each entry and in visiting order.  So for two visiting orders `t1` and `t2` of
one table the lines added under one order are a permutation of the lines added under the other,
they are equal as multisets, and there are as many lines as entries. -/
theorem printObjects_visiting_order (s : logger) (t1 t2 : List (Ident × Option Object))
    (hperm : t1.Perm t2) :
    (∃ line : Ident × Option Object → String,
        ∀ (w : Writer) (objMap : List (Ident × Option Object)),
          (logger.printObjects { s with w := w } objMap).w.written
            = w.written ++ objMap.map line)
      ∧ ((s.printObjects t1).w.written.drop s.w.written.length).Perm
          ((s.printObjects t2).w.written.drop s.w.written.length)
      ∧ Multiset.ofList ((s.printObjects t1).w.written.drop s.w.written.length)
          = Multiset.ofList ((s.printObjects t2).w.written.drop s.w.written.length)
      ∧ ((s.printObjects t1).w.written.drop s.w.written.length).length = t1.length
      ∧ ((s.printObjects t2).w.written.drop s.w.written.length).length = t2.length := by
  have hnew : ∀ t : List (Ident × Option Object),
      (s.printObjects t).w.written.drop s.w.written.length
        = t.map (fun e => s.prefix_ ++ " " ++ s.message e ++ "\n") := by
    intro t
    rw [printObjects_written, List.drop_left]
  have hp : ((s.printObjects t1).w.written.drop s.w.written.length).Perm
      ((s.printObjects t2).w.written.drop s.w.written.length) := by
    rw [hnew t1, hnew t2]
    exact hperm.map _
  refine ⟨⟨fun e => s.prefix_ ++ " " ++ s.message e ++ "\n", ?_⟩, hp, Quotient.sound hp, ?_, ?_⟩
  · intro w objMap
    rw [printObjects_written]
    have hfun : (fun e => (logger.mk s.prefix_ s.pkg s.pkgSet w).prefix_ ++ " "
          ++ (logger.mk s.prefix_ s.pkg s.pkgSet w).message e ++ "\n")
        = (fun e => s.prefix_ ++ " " ++ s.message e ++ "\n") := by
      funext e
      rw [message_congr (logger.mk s.prefix_ s.pkg s.pkgSet w) s rfl rfl e]
    exact congrArg (fun f => w.written ++ objMap.map f) hfun
  · rw [hnew t1, List.length_map]
  · rw [hnew t2, List.length_map]

/-- C14, witness: the first two uses of package `a`, visited in either order. -/
theorem printObjects_visiting_order_witness :
    ((sampleLogger.printObjects
          [(⟨30, "len"⟩, some objLen), (⟨20, "x"⟩, some objX)]).w.written.drop
        sampleLogger.w.written.length).Perm
      ((sampleLogger.printObjects
          [(⟨20, "x"⟩, some objX), (⟨30, "len"⟩, some objLen)]).w.written.drop
        sampleLogger.w.written.length) :=
  (printObjects_visiting_order sampleLogger
    [(⟨30, "len"⟩, some objLen), (⟨20, "x"⟩, some objX)]
    [(⟨20, "x"⟩, some objX), (⟨30, "len"⟩, some objLen)] (List.Perm.swap _ _ _)).2.1

/-- C15: the keys of the package set `main` builds are the names of the loaded packages, and the
value under a key is the last package of the list with that name.  When two packages of the list
share a name, the name leads to the later one and every other key leads to a package with
another name, so the earlier one is not reached; when the names of the list are distinct every
package is the value under its own name. -/
theorem buildPkgSet_keys (pkgs : List Package) :
    (∀ k : String, (buildPkgSet pkgs k).isSome = true ↔ ∃ p ∈ pkgs, p.Name = k)
      ∧ (∀ (k : String) (q : Package), buildPkgSet pkgs k = some q →
          ∃ pre post, pkgs = pre ++ q :: post ∧ q.Name = k ∧ ∀ r ∈ post, r.Name ≠ k)
      ∧ (∀ (pre post : List Package) (d : Package), pkgs = pre ++ d :: post →
          (∀ r ∈ post, r.Name ≠ d.Name) → buildPkgSet pkgs d.Name = some d)
      ∧ (∀ (pre mid post : List Package) (e d : Package),
          pkgs = pre ++ e :: (mid ++ d :: post) → e.Name = d.Name →
          (∀ r ∈ post, r.Name ≠ d.Name) →
          buildPkgSet pkgs e.Name = some d
            ∧ ∀ (k : String) (q : Package), k ≠ e.Name → buildPkgSet pkgs k = some q →
                q.Name ≠ e.Name)
      ∧ ((pkgs.map Package.Name).Nodup → ∀ p ∈ pkgs, buildPkgSet pkgs p.Name = some p) := by
  refine ⟨?_, buildPkgSet_some pkgs, ?_, ?_, ?_⟩
  · intro k
    constructor
    · intro h
      obtain ⟨q, hq⟩ := Option.isSome_iff_exists.1 h
      obtain ⟨pre, post, hl, hname, -⟩ := buildPkgSet_some pkgs k q hq
      exact ⟨q, by rw [hl]; simp, hname⟩
    · rintro ⟨p, hp, rfl⟩
      exact buildPkgSet_isSome_of_mem pkgs p hp
  · intro pre post d hl hlast
    rw [hl]
    exact buildPkgSet_last pre post d hlast
  · intro pre mid post e d hl hname hlast
    constructor
    · rw [hl, hname]
      have h := buildPkgSet_last (pre ++ e :: mid) post d hlast
      simpa [List.append_assoc] using h
    · intro k q hk hq
      obtain ⟨-, -, -, hqn, -⟩ := buildPkgSet_some pkgs k q hq
      rw [hqn]
      exact hk
  · intro hnodup p hp
    obtain ⟨pre, post, hl⟩ := List.append_of_mem hp
    rw [hl]
    apply buildPkgSet_last
    intro r hr hrn
    rw [hl, List.map_append, List.map_cons] at hnodup
    have h2 := (List.nodup_append.1 hnodup).2.1
    have h3 : p.Name ∉ post.map Package.Name := (List.nodup_cons.1 h2).1
    exact h3 (List.mem_map.2 ⟨r, hr, hrn⟩)

/-- C15, witness: of two loaded packages named `util` the name leads to the second. -/
theorem buildPkgSet_keys_witness :
    buildPkgSet [utilX, utilY] utilX.Name = some utilY
      ∧ ∀ (k : String) (q : Package), k ≠ utilX.Name →
          buildPkgSet [utilX, utilY] k = some q → q.Name ≠ utilX.Name :=
  (buildPkgSet_keys [utilX, utilY]).2.2.2.1 [] [] [] utilX utilY rfl rfl (by simp)

/-! ## A definition and its use in one package -/

theorem defs_label (n m : String) :
    "[" ++ n ++ "][" ++ "defs" ++ "]" ++ " " ++ m ++ "\n" = "[" ++ n ++ "][defs] " ++ m ++ "\n" := by
  have hd : ("][defs] " : String) = "][" ++ "defs" ++ "]" ++ " " := by decide
  rw [hd]
  simp only [String.append_assoc]

theorem uses_label (n m : String) :
    "[" ++ n ++ "][" ++ "uses" ++ "]" ++ " " ++ m ++ "\n" = "[" ++ n ++ "][uses] " ++ m ++ "\n" := by
  have hu : ("][uses] " : String) = "][" ++ "uses" ++ "]" ++ " " := by decide
  rw [hu]
  simp only [String.append_assoc]

theorem main_returned_stderr (Load : List String → Except String (List Package))
    (Args : List String) (world : World) (pkgs : List Package) (hargs : 2 ≤ Args.length)
    (hload : Load (Args.drop 1) = Except.ok pkgs)
    (hret : (main Load Args world).2 = Status.returned) :
    (main Load Args world).1.Stderr.written
      = world.Stderr.written ++ pkgs.flatMap (pkgBlock (buildPkgSet pkgs)) := by
  rw [main_loaded Load Args world pkgs hargs hload] at hret ⊢
  obtain ⟨-, -, -, k, part, -, -, herr, -, hend⟩ := mainLoop_trace (buildPkgSet pkgs) pkgs
    { world with loads := world.loads ++ [Args.drop 1] }
  rcases hend with ⟨-, hkl, -, -⟩ | ⟨err, q, hpanic, -⟩
  · rw [herr, hkl, List.take_length]
  · rw [hpanic] at hret; cases hret

/-- C11: let the packages `pkgs` be those of one load, all carrying the position table `fset`
of the load, let `p` be one of them, and let a symbol declared in `p` have a declaring occurrence
at place `i` of the definitions table of `p` and a use at another offset at place `j` of its
uses table.  In the block `main` writes for `p`, the definition line and the use line are as
follows: the position after `=>` in the use line is the occurrence position of the definition
line, namely the declaration offset resolved in the table of `p`; both lines name `p` as the
package; the raw declaration offset of the use line is the raw offset of the definition line.
On a run of `main` that returns, both lines are on standard error. -/
theorem definition_and_use_agree (fset : FileSet) (pkgs : List Package) (p : Package)
    (obj : Object) (i j : Nat) (identD identU : Ident)
    (hshared : ∀ q ∈ pkgs, q.Fset = fset) (hp : p ∈ pkgs)
    (hdecl : obj.Pkg = some p.Types) (hname : p.Types.Name = p.Name)
    (hdef : p.TypesInfo.Defs[i]? = some (identD, some obj)) (hdpos : identD.Pos = obj.Pos)
    (huse : p.TypesInfo.Uses[j]? = some (identU, some obj)) (hupos : identU.Pos ≠ obj.Pos) :
    ∃ (declPos : String) (defLine useLine : String),
      declPos = (p.Fset.Position obj.Pos).render
        ∧ defLine = "[" ++ p.Name ++ "][defs] "
            ++ (declPos ++ " (" ++ itoa obj.Pos ++ ") " ++ p.Name ++ " "
                ++ obj.ObjectString ++ " " ++ obj.TypeOf)
            ++ "\n"
        ∧ useLine = "[" ++ p.Name ++ "][uses] "
            ++ ((p.Fset.Position identU.Pos).render ++ " (" ++ itoa identU.Pos ++ ") => "
                ++ p.Name ++ " " ++ declPos ++ " (" ++ itoa obj.Pos ++ ") "
                ++ obj.ObjectString ++ " " ++ obj.TypeOf)
            ++ "\n"
        ∧ (pkgBlock (buildPkgSet pkgs) p)[i]? = some defLine
        ∧ (pkgBlock (buildPkgSet pkgs) p)[p.TypesInfo.Defs.length + j]? = some useLine
        ∧ ∀ (Load : List String → Except String (List Package)) (Args : List String)
            (world : World), 2 ≤ Args.length →
            Load (Args.drop 1) = Except.ok pkgs →
            (main Load Args world).2 = Status.returned →
            defLine ∈ (main Load Args world).1.Stderr.written
              ∧ useLine ∈ (main Load Args world).1.Stderr.written := by
  have hpn : pkgName obj = p.Name := by simp [pkgName, hdecl, hname]
  have hop : ∀ t : logger, t.pkgSet = buildPkgSet pkgs →
      t.objPos obj = p.Fset.Position obj.Pos := by
    intro t ht
    obtain ⟨q, hq⟩ := Option.isSome_iff_exists.1 (buildPkgSet_isSome_of_mem pkgs p hp)
    obtain ⟨pre, post, hl, -, -⟩ := buildPkgSet_some pkgs _ q hq
    have hqmem : q ∈ pkgs := by rw [hl]; simp
    simp [logger.objPos, hdecl, hname, ht, hq, hshared q hqmem, hshared p hp]
  have hi : i < p.TypesInfo.Defs.length := by
    by_contra hcon
    rw [List.getElem?_eq_none (by omega)] at hdef
    cases hdef
  have hmd : logger.message ⟨"", p, buildPkgSet pkgs, ⟨[], fun _ => none⟩⟩ (identD, some obj)
      = (p.Fset.Position obj.Pos).render ++ " (" ++ itoa obj.Pos ++ ") " ++ p.Name ++ " "
          ++ obj.ObjectString ++ " " ++ obj.TypeOf := by
    simp only [logger.message, hdpos, if_true, hpn]
  have hmu : logger.message ⟨"", p, buildPkgSet pkgs, ⟨[], fun _ => none⟩⟩ (identU, some obj)
      = (p.Fset.Position identU.Pos).render ++ " (" ++ itoa identU.Pos ++ ") => "
          ++ p.Name ++ " " ++ (p.Fset.Position obj.Pos).render ++ " (" ++ itoa obj.Pos ++ ") "
          ++ obj.ObjectString ++ " " ++ obj.TypeOf := by
    simp only [logger.message]
    rw [if_neg hupos, hpn, hop _ rfl]
  have hbd : (pkgBlock (buildPkgSet pkgs) p)[i]?
      = some ("[" ++ p.Name ++ "][defs] "
          ++ ((p.Fset.Position obj.Pos).render ++ " (" ++ itoa obj.Pos ++ ") " ++ p.Name ++ " "
              ++ obj.ObjectString ++ " " ++ obj.TypeOf)
          ++ "\n") := by
    rw [pkgBlock_eq, List.getElem?_append_left (by simpa using hi), List.getElem?_map, hdef]
    simp only [Option.map_some', hmd, defs_label]
  have hbu : (pkgBlock (buildPkgSet pkgs) p)[p.TypesInfo.Defs.length + j]?
      = some ("[" ++ p.Name ++ "][uses] "
          ++ ((p.Fset.Position identU.Pos).render ++ " (" ++ itoa identU.Pos ++ ") => "
              ++ p.Name ++ " " ++ (p.Fset.Position obj.Pos).render ++ " (" ++ itoa obj.Pos
              ++ ") " ++ obj.ObjectString ++ " " ++ obj.TypeOf)
          ++ "\n") := by
    rw [pkgBlock_eq, List.getElem?_append_right (by simp)]
    simp only [List.length_map, Nat.add_sub_cancel_left, List.getElem?_map, huse,
      Option.map_some', hmu, uses_label]
  refine ⟨_, _, _, rfl, rfl, rfl, hbd, hbu, ?_⟩
  intro Load Args world hargs hload hret
  rw [main_returned_stderr Load Args world pkgs hargs hload hret]
  have hblock : ∀ l, l ∈ pkgBlock (buildPkgSet pkgs) p →
      l ∈ world.Stderr.written ++ pkgs.flatMap (pkgBlock (buildPkgSet pkgs)) := by
    intro l hl
    exact List.mem_append_right _ (List.mem_flatMap.2 ⟨p, hp, hl⟩)
  exact ⟨hblock _ (List.getElem?_mem hbd), hblock _ (List.getElem?_mem hbu)⟩

/-- C11, witness: the first of two loaded packages named `util` defines `Helper` at offset 12 and
uses it at offset 30; the use line points to the position of the definition line. -/
theorem definition_and_use_agree_witness :
    ∃ (declPos : String) (defLine useLine : String),
      declPos = (sharedX.Fset.Position objHelper.Pos).render
        ∧ defLine = "[" ++ sharedX.Name ++ "][defs] "
            ++ (declPos ++ " (" ++ itoa objHelper.Pos ++ ") " ++ sharedX.Name ++ " "
                ++ objHelper.ObjectString ++ " " ++ objHelper.TypeOf)
            ++ "\n"
        ∧ useLine = "[" ++ sharedX.Name ++ "][uses] "
            ++ ((sharedX.Fset.Position (Ident.mk 30 "Helper").Pos).render ++ " ("
                ++ itoa (Ident.mk 30 "Helper").Pos ++ ") => "
                ++ sharedX.Name ++ " " ++ declPos ++ " (" ++ itoa objHelper.Pos ++ ") "
                ++ objHelper.ObjectString ++ " " ++ objHelper.TypeOf)
            ++ "\n"
        ∧ (pkgBlock (buildPkgSet [sharedX, sharedY]) sharedX)[0]? = some defLine
        ∧ (pkgBlock (buildPkgSet [sharedX, sharedY]) sharedX)[sharedX.TypesInfo.Defs.length + 0]?
            = some useLine
        ∧ ∀ (Load : List String → Except String (List Package)) (Args : List String)
            (world : World), 2 ≤ Args.length →
            Load (Args.drop 1) = Except.ok [sharedX, sharedY] →
            (main Load Args world).2 = Status.returned →
            defLine ∈ (main Load Args world).1.Stderr.written
              ∧ useLine ∈ (main Load Args world).1.Stderr.written :=
  definition_and_use_agree loadFset [sharedX, sharedY] sharedX objHelper 0 0 ⟨12, "Helper"⟩
    ⟨30, "Helper"⟩ (by intro q hq; simp at hq; rcases hq with rfl | rfl <;> rfl) (by simp)
    rfl rfl rfl rfl rfl (by decide)

/-- The run of `main` on the two packages named `util` of one load: the use lines of both
packages give the position of the definition line after `=>`. -/
theorem shared_table_run :
    (main sharedLoad ["testprintpkg", "./..."] sampleWorld).1.Stderr.written
      = ["[util][defs] x/util/util.go:3:12 (12) util func example.com/m/x/util.Helper() *types.Signature\n",
         "[util][uses] x/util/util.go:3:30 (30) => util x/util/util.go:3:12 (12) func example.com/m/x/util.Helper() *types.Signature\n",
         "[util][uses] y/util/util.go:9:30 (130) => util x/util/util.go:3:12 (12) func example.com/m/x/util.Helper() *types.Signature\n"] := by
  decide

end Testprintpkg
